import Mathlib

/-!
# Verification of the sopsistry plan/execute/rotate engine

Shallow embedding of the core of `edvardm/sopsistry` (Go) in Lean 4:
the manifest data model (`internal/core` manifest file, given as
`src/unnamed/part_009` plus the `Created`/`MaxKeyAgeDays` fields used
throughout `manager.go`), the planner (`internal/core/planner.go`),
the executor (`internal/core/executor.go`, with the alternative
re-encryption strategy of `src/unnamed/part_011`), the key-rotation
pipeline and the key-expiry audit (`internal/core/manager.go`), and
member management (`internal/core/manager.go` `AddMember`).

Conventions of the embedding:
* Filesystems are maps from path to byte content, represented as
  association lists (file contents are opaque strings).
* Calls to external processes (`sops`, `age-keygen`) are oracles passed in
  as parameters: the engine only observes their exit status and output.
* `time.Time` / `time.Duration` values are integer nanosecond counts.
* Output to the terminal (`fmt.Printf`) is not modelled; it is the only
  side effect the embedded functions drop.
-/

namespace Sopsistry

/-! ## Filesystem model -/

/-- A filesystem: an association list from path to file content.  The
semantics is given by `FS.read`; `FS.write` keeps at most one entry per
path by construction. -/
abbrev FS := List (String × String)

namespace FS

/-- Content of the file at `p`, if it exists (`os.ReadFile`). -/
def read (fs : FS) (p : String) : Option String :=
  (fs.find? (fun e => e.1 == p)).map (·.2)

/-- `os.Remove`, ignoring a missing file (the engine always either checks
existence first or discards the error of removing a missing file). -/
def remove (fs : FS) (p : String) : FS :=
  fs.filter (fun e => e.1 != p)

/-- `os.WriteFile`: create, or truncate and overwrite, the file at `p`. -/
def write (fs : FS) (p v : String) : FS :=
  (p, v) :: fs.remove p

/-- Whether the file at `p` exists (`os.Stat` succeeding). -/
def exists? (fs : FS) (p : String) : Bool :=
  fs.any (fun e => e.1 == p)

end FS

/-- Decidable equality for `Except`, so concrete runs can be checked by
`decide`. -/
instance instDecEqExcept {e a : Type} [DecidableEq e] [DecidableEq a] :
    DecidableEq (Except e a) := fun x y =>
  match x, y with
  | .ok u, .ok v =>
    match decEq u v with
    | isTrue h => isTrue (by rw [h])
    | isFalse h => isFalse (by intro hc; cases hc; exact h rfl)
  | .error u, .error v =>
    match decEq u v with
    | isTrue h => isTrue (by rw [h])
    | isFalse h => isFalse (by intro hc; cases hc; exact h rfl)
  | .ok _, .error _ => isFalse (by intro hc; cases hc)
  | .error _, .ok _ => isFalse (by intro hc; cases hc)

/-! ## Data model (`internal/core` manifest types)

The manifest types as used by the current code: `Member` carries the
`Created` timestamp and `Settings` carries `MaxKeyAgeDays`, both consumed
by `manager.go` (key-age policy) and present in the persisted form
(`members: [{id, age_key, created}]`, `settings: {sops_version,
max_key_age_days}`).  Timestamps are nanoseconds since the epoch, exactly
the resolution of Go `time.Time`/`time.Duration` arithmetic used here. -/

structure Member where
  ID : String
  AgeKey : String
  Created : Int
  deriving Repr, DecidableEq

structure Scope where
  Name : String
  Patterns : List String
  Members : List String
  deriving Repr, DecidableEq

structure Settings where
  SopsVersion : String
  MaxKeyAgeDays : Int
  deriving Repr, DecidableEq

structure Manifest where
  Members : List Member
  Scopes : List Scope
  Settings : Settings
  deriving Repr, DecidableEq

/-- `Manifest.GetMemberAgeKey`: the age key of the first member with the
given ID (Go returns `("", false)` when absent, modelled as `none`). -/
def Manifest.GetMemberAgeKey (m : Manifest) (id : String) : Option String :=
  (m.Members.find? (fun member => member.ID == id)).map (·.AgeKey)

/-- The member-resolution loop of `Manifest.GetScopeMembers`: looks up each
referenced ID in order and fails on the first ID with no matching member.
Go builds `Member{ID: memberID, AgeKey: ageKey}` values; the zero
`Created` of that struct literal is `0` here (the planner never reads it). -/
def resolveScopeMembers (m : Manifest) : List String → Except String (List Member)
  | [] => .ok []
  | id :: rest =>
    match m.GetMemberAgeKey id with
    | none => .error ("member " ++ id ++ " not found")
    | some key => (resolveScopeMembers m rest).map (⟨id, key, 0⟩ :: ·)

/-- `Manifest.GetScopeMembers`: find the (first) scope with the given name,
then resolve its member IDs in the order listed. -/
def Manifest.GetScopeMembers (m : Manifest) (scopeName : String) :
    Except String (List Member) :=
  match m.Scopes.find? (fun s => s.Name == scopeName) with
  | none => .error ("scope " ++ scopeName ++ " not found")
  | some scope => resolveScopeMembers m scope.Members

/-! ## Planner (`internal/core/planner.go`) -/

inductive ActionType where
  | encrypt
  | reencrypt
  | skip
  deriving Repr, DecidableEq

structure Action where
  Recipients : List String
  File : String
  Scope : String
  Description : String
  type : ActionType
  deriving Repr, DecidableEq

/-- The filesystem snapshot as the planner observes it.  `globResult`
is `filepath.Glob` on the snapshot: for each pattern, either the matched
paths in lexical order or `ErrBadPattern`; `isDir` is `os.Stat` reporting
a directory; `isSops` is `Planner.isSOPSFile`, the content sniff for the
markers `sops:`, `"sops"`, `lastmodified`, `mac` (false when the file is
unreadable). -/
structure PlanEnv where
  globResult : String → Except Unit (List String)
  isDir : String → Bool
  isSops : String → Bool

/-- `Planner.shouldIncludeFile`: drop paths already seen for this scope and
paths that exist and are directories. -/
def shouldIncludeFile (env : PlanEnv) (filePath : String) (seen : List String) : Bool :=
  !(seen.contains filePath) && !(env.isDir filePath)

/-- The match loop of `Planner.findFilesForPattern`: keep each glob match
that passes `shouldIncludeFile`, marking it seen immediately. -/
def globLoop (env : PlanEnv) : List String → List String → List String × List String
  | [], seen => ([], seen)
  | mtch :: ms, seen =>
    if shouldIncludeFile env mtch seen then
      let rest := globLoop env ms (mtch :: seen)
      (mtch :: rest.1, rest.2)
    else
      globLoop env ms seen

/-- The pattern loop of `Planner.findMatchingFiles`: expand each pattern in
order, threading the scope-local `seen` set, concatenating the per-pattern
results; a bad pattern aborts with `invalid pattern`. -/
def patternsLoop (env : PlanEnv) : List String → List String → Except String (List String)
  | [], _ => .ok []
  | pat :: rest, seen =>
    match env.globResult pat with
    | .error _ => .error ("invalid pattern " ++ pat)
    | .ok ms =>
      let this := globLoop env ms seen
      (patternsLoop env rest this.2).map (this.1 ++ ·)

/-- `Planner.findMatchingFiles`: the per-scope file list, starting from an
empty `seen` set (the set is scoped to one scope, not the whole plan). -/
def findMatchingFiles (env : PlanEnv) (patterns : List String) : Except String (List String) :=
  patternsLoop env patterns []

/-- `Planner.createSkipActions`. -/
def createSkipActions (files : List String) (scopeName : String) : List Action :=
  files.map (fun file =>
    { type := .skip, File := file, Scope := scopeName,
      Recipients := [], Description := "No members in scope" })

/-- `Planner.extractAgeKeys`. -/
def extractAgeKeys (members : List Member) : List String :=
  members.map (·.AgeKey)

/-- `Planner.createFileActions`: classify each file as re-encrypt when it
already looks SOPS-encrypted, else encrypt; attach the full recipient
list to every action. -/
def createFileActions (env : PlanEnv) (files : List String) (scopeName : String)
    (recipients : List String) : List Action :=
  files.map (fun file =>
    if env.isSops file then
      { type := .reencrypt, File := file, Scope := scopeName,
        Recipients := recipients, Description := "Re-encrypt with updated team" }
    else
      { type := .encrypt, File := file, Scope := scopeName,
        Recipients := recipients, Description := "Encrypt with current team" })

/-- `Planner.planScopeActions`. -/
def planScopeActions (env : PlanEnv) (scope : Scope) (m : Manifest) :
    Except String (List Action) :=
  match findMatchingFiles env scope.Patterns with
  | .error e => .error ("failed to find files for scope " ++ scope.Name ++ ": " ++ e)
  | .ok files =>
    match m.GetScopeMembers scope.Name with
    | .error e => .error ("failed to get members for scope " ++ scope.Name ++ ": " ++ e)
    | .ok members =>
      if members.length = 0 then
        .ok (createSkipActions files scope.Name)
      else
        .ok (createFileActions env files scope.Name (extractAgeKeys members))

/-- The scope loop of `Planner.ComputePlan`: concatenate per-scope actions
in manifest scope order; the first per-scope error aborts the whole
computation with no plan. -/
def scopesLoop (env : PlanEnv) (m : Manifest) : List Scope → Except String (List Action)
  | [] => .ok []
  | s :: rest =>
    match planScopeActions env s m with
    | .error e => .error e
    | .ok actions => (scopesLoop env m rest).map (actions ++ ·)

/-- `Planner.ComputePlan` (the plan is its action list). -/
def ComputePlan (env : PlanEnv) (m : Manifest) : Except String (List Action) :=
  scopesLoop env m m.Scopes

/-! ## Executor (`internal/core/executor.go`)

`Executor.Execute` processes the plan in order; for every non-skip action
it copies the target file (if it exists) into a backup slot in
`.sopsistry-backup` keyed by the action's position and the file's base
name, then invokes the external tool; on the first tool failure it calls
`rollback` on the slice `plan.Actions[:executedActions+1]` and surfaces
the error.  The external tool invocation (`sops -e --in-place` /
decrypt-reencrypt) is an oracle `Tool` that transforms the filesystem and
either succeeds or fails; the backup directory is modelled as its own map
since its path namespace (`.sopsistry-backup/`) is disjoint from the
plan's target files. -/

/-- `filepath.Base`: the last element of the path. -/
def baseName (p : String) : String :=
  (p.splitOn "/").getLastD p

/-- The backup slot key for action index `i`:
`fmt.Sprintf("%d-%s", index, filepath.Base(filePath))`. -/
def backupSlot (i : Nat) (file : String) : String :=
  toString i ++ "-" ++ baseName file

/-- Result of one external-tool invocation for one action: the tool
process mutates the filesystem and exits zero or non-zero.  A failing
invocation may also have mutated the file (e.g. a partial in-place
write). -/
inductive ToolResult where
  | succeeded (fs : FS)
  | failed (fs : FS)

/-- The external tool as the executor sees it: given the action's index,
the action and the current filesystem, run the process. -/
abbrev Tool := Nat → Action → FS → ToolResult

/-- Outcome of `Executor.Execute`: success with the final filesystem and
the count of applied changes, or an error with the filesystem as left
after rollback. -/
inductive ExecOutcome where
  | success (fs : FS) (executed : Nat)
  | error (fs : FS)
  deriving Repr, DecidableEq

/-- `Executor.rollback`: restore, in order, every non-skip action of the
given indexed slice from its backup slot, skipping slots that were never
written (the file did not exist before).  The Go slice
`plan.Actions[:n]` keeps the original indices `0..n-1`, so the indexed
list passed here carries the original plan positions. -/
def rollback (backup : FS) : List (Nat × Action) → FS → FS
  | [], fs => fs
  | (i, a) :: rest, fs =>
    if a.type = .skip then
      rollback backup rest fs
    else
      match backup.read (backupSlot i a.File) with
      | some content => rollback backup rest (fs.write a.File content)
      | none => rollback backup rest fs

/-- The loop of `Executor.executeActionsWithRollback` over the indexed
actions, threading the count of successfully executed non-skip actions
(`executedActions`), the backup map and the filesystem.  On a tool
failure it rolls back `plan.take (executedActions + 1)` — the literal
translation of `plan.Actions[:executedActions+1]` — and returns the
error outcome. -/
def execLoop (tool : Tool) (plan : List Action) :
    List (Nat × Action) → Nat → FS → FS → ExecOutcome
  | [], executed, _, fs => .success fs executed
  | (i, a) :: rest, executed, backup, fs =>
    if a.type = .skip then
      execLoop tool plan rest executed backup fs
    else
      let backup' :=
        match fs.read a.File with
        | some content => backup.write (backupSlot i a.File) content
        | none => backup
      match tool i a fs with
      | .succeeded fs' => execLoop tool plan rest (executed + 1) backup' fs'
      | .failed fsf =>
        .error (rollback backup' ((plan.take (executed + 1)).enum) fsf)

/-- `Executor.Execute`: empty plans succeed immediately; otherwise run the
loop with a fresh backup directory.  The backup directory is removed on
both exits (`defer os.RemoveAll`), so it does not appear in the
outcome. -/
def Execute (tool : Tool) (plan : List Action) (fs : FS) : ExecOutcome :=
  if plan.isEmpty then .success fs 0
  else execLoop tool plan plan.enum 0 [] fs

/-! ## Re-encryption strategies (C2)

`executor.go`'s `reencryptFile` versus the variant in
`src/unnamed/part_011`.  Each is modelled as the sequence of
filesystem-visible operations the sopsistry process performs on the
success path, distinguishing writes performed by the sopsistry process
itself (`hostWrite`) from external tool invocations (`toolRun`), whose
own I/O stays inside the tool's process boundary. -/

inductive HostOp where
  /-- `exec.Command(...)`: run the external tool with the given
  environment additions and argument vector. -/
  | toolRun (envAdd : List String) (argv : List String)
  /-- `os.WriteFile` performed by the sopsistry process itself. -/
  | hostWrite (path content : String)
  /-- `os.Remove` performed by the sopsistry process itself. -/
  | hostRemove (path : String)
  /-- `os.Rename` performed by the sopsistry process itself. -/
  | hostRename (src dst : String)
  deriving Repr, DecidableEq

/-- The temporary `.sops.yaml` content written by
`Executor.createTempSOPSConfig`. -/
def sopsConfigContent (recipients : List String) : String :=
  "creation_rules:\n  - age: " ++ String.intercalate "," recipients ++ "\n"

/-- `Executor.encryptFile` (success path): write a temporary SOPS config,
run `sops -e --in-place <file>` with `SOPS_AGE_RECIPIENTS` set, remove
the config.  `cfg` is the `os.CreateTemp` path. -/
def encryptFileOps (sopsPath cfg file : String) (recipients : List String) : List HostOp :=
  [ .hostWrite cfg (sopsConfigContent recipients),
    .toolRun ["SOPS_AGE_RECIPIENTS=" ++ String.intercalate "," recipients]
      [sopsPath, "-e", "--in-place", file],
    .hostRemove cfg ]

/-- `executor.go` `reencryptFile` (success path): decrypt via
`sops -d <file>`, write the decrypted plaintext to `<file>.tmp`
(mode 0600), encrypt the temp file in place with the new recipients,
rename it over the original, then the deferred `os.Remove` of the temp
file runs.  `plaintext` is the decrypted output of the tool. -/
def reencryptFileOps (sopsPath cfg file : String) (recipients : List String)
    (plaintext : String) : List HostOp :=
  [ .toolRun [] [sopsPath, "-d", file],
    .hostWrite (file ++ ".tmp") plaintext ]
  ++ encryptFileOps sopsPath cfg (file ++ ".tmp") recipients
  ++ [ .hostRename (file ++ ".tmp") file,
       .hostRemove (file ++ ".tmp") ]

/-- `src/unnamed/part_011` `reencryptFile`: a single invocation of the
tool's native re-key, `sops --rotate --age <recipients> <file>`. -/
def reencryptFileNativeOps (sopsPath file : String) (recipients : List String) : List HostOp :=
  [ .toolRun [] [sopsPath, "--rotate", "--age", String.intercalate "," recipients, file] ]

/-- The writes the sopsistry process itself performs in a sequence of
operations (everything a `hostWrite` put on disk). -/
def hostWrites (ops : List HostOp) : List (String × String) :=
  ops.filterMap (fun op =>
    match op with
    | .hostWrite p c => some (p, c)
    | _ => none)

/-! ## Key-expiry audit (`manager.go` `CheckKeyExpiry` /
`checkMemberKeyStatus`)

Durations are integer nanoseconds.  The only non-integer arithmetic in
the source is the day count `int(d.Hours()/24)` used in the messages; for
the nonnegative whole-hour durations produced by day-granularity
timestamps it equals truncated integer division by a day, which is how it
is modelled here (`Int` division in Lean truncates toward zero, like
Go's float-to-int conversion, and all durations involved are
nonnegative). -/

/-- One day of `time.Duration` nanoseconds (`24 * time.Hour`). -/
def nsPerDay : Int := 24 * 3600 * 1000000000

/-- `int(d.Hours() / 24)` for the nonnegative whole-hour durations the
audit reports. -/
def durationDays (d : Int) : Int := d / nsPerDay

/-- The classification `checkMemberKeyStatus` prints for one member,
with the day count of the accompanying message. -/
inductive KeyStatus where
  /-- `❌ key expired N days ago`; counts as one error. -/
  | expired (daysAgo : Int)
  /-- `⚠️ key expires in N days`; counts as one warning. -/
  | warning (daysUntil : Int)
  /-- `✅ key is N days old`. -/
  | fresh (daysOld : Int)
  deriving Repr, DecidableEq

/-- `SopsManager.checkMemberKeyStatus`: classify one member by age
(`now − member.Created`) against `maxAge = maxAgeDays * 24h`, with the
fixed warning threshold `maxAge − 14 * 24h` ("2 weeks before expiry"). -/
def checkMemberKeyStatus (member : Member) (maxAgeDays : Int) (now : Int) : KeyStatus :=
  if now - member.Created > maxAgeDays * nsPerDay then
    .expired (durationDays (now - member.Created - maxAgeDays * nsPerDay))
  else if now - member.Created > maxAgeDays * nsPerDay - 14 * nsPerDay then
    .warning (durationDays (maxAgeDays * nsPerDay - (now - member.Created)))
  else
    .fresh (durationDays (now - member.Created))

/-- Result of the audit: the per-member classifications in member order,
and the aggregated counts.  The audit only loads the manifest and prints;
it is a pure function of the manifest and the clock, mutating nothing. -/
structure AuditReport where
  statuses : List KeyStatus
  warnings : Nat
  errors : Nat
  deriving Repr, DecidableEq

/-- `SopsManager.CheckKeyExpiry`: floor the configured maximum age at 180
days (`max(maxAgeDays, 180)`), classify every member, and count warnings
and errors. -/
def CheckKeyExpiry (m : Manifest) (now : Int) : AuditReport :=
  let maxAgeDays := max m.Settings.MaxKeyAgeDays 180
  let statuses := m.Members.map (fun member => checkMemberKeyStatus member maxAgeDays now)
  { statuses := statuses,
    warnings := (statuses.filter (fun s => match s with | .warning _ => true | _ => false)).length,
    errors := (statuses.filter (fun s => match s with | .expired _ => true | _ => false)).length }

/-- The spec's classification, written from the claim's words: classify
age against `maxAge = max(Settings.MaxKeyAgeDays, floor)` and a warning
window `W`: `age > maxAge` → Expired; `maxAge − W < age ≤ maxAge` →
Warning; else OK.  Used to compare the source's classification against
the claim. -/
inductive KeyStatusClass where
  | expired
  | warning
  | fresh
  deriving Repr, DecidableEq

/-- Forget the day counts of a `KeyStatus`. -/
def KeyStatus.class : KeyStatus → KeyStatusClass
  | .expired _ => .expired
  | .warning _ => .warning
  | .fresh _ => .fresh

/-- Spec-side classification (from the claim's words). -/
def specClassify (age maxAge window : Int) : KeyStatusClass :=
  if age > maxAge then .expired
  else if maxAge - window < age ∧ age ≤ maxAge then .warning
  else .fresh

/-! ## Key rotation (`manager.go` `RotateKey` and helpers)

The rotation state is the manifest file plus the on-disk files of the
secrets directory (key files and the rotation backup), together with a
log of external-tool invocations (so "no plan was executed" is visible in
the state).  External collaborators are oracles in `RotEnv`:

* `currentUser` — `user.Current()` (or the ambient override);
* `pubOf` — `age-keygen -y`, deriving the public identity from a private
  key file's content (`none` = the derivation failed, such files are
  skipped by the scan);
* `gen` — the external key-generation tool: a new `(public, private)`
  pair, or a failure;
* `keyHash` — `keyHashFromPrivateKey` (first 5 hex chars of SHA-1);
* `saveOK` — whether `manifest.Save` succeeds (a failing save is modelled
  as leaving the file unchanged);
* `planEnv` — the filesystem snapshot the re-plan runs against;
* `execOK` — whether `Executor.Execute` of the recomputed plan succeeds
  (its effect on the working files is outside this state, which tracks
  the manifest and the key files that the claims are about). -/

structure RotState where
  manifestFile : Option Manifest
  files : FS
  log : List String
  deriving Repr, DecidableEq

structure RotEnv where
  currentUser : Option String
  pubOf : String → Option String
  gen : Except String (String × String)
  keyHash : String → String
  saveOK : Bool
  planEnv : PlanEnv
  execOK : Bool
  now : Int

/-- `SopsManager.keyPathForPrivateKey`:
`.secrets/key-<hash(privateKey)>.txt`. -/
def keyPathForPrivateKey (env : RotEnv) (privateKeyContent : String) : String :=
  ".secrets/key-" ++ env.keyHash privateKeyContent ++ ".txt"

/-- Whether a path is a candidate of the `.secrets/key-*.txt` glob
(prefix/suffix check on the character list; key files live flat in the
secrets directory, so `*` crossing a separator does not arise). -/
def isSecretsKeyPath (p : String) : Bool :=
  ".secrets/key-".data.isPrefixOf p.data && ".txt".data.isSuffixOf p.data

/-- `SopsManager.findKeyForPublicKey`: scan the key files in glob order,
derive each file's public identity, skip files whose derivation fails,
and return the first path whose identity matches. -/
def findKeyForPublicKey (env : RotEnv) (fs : FS) (targetPublicKey : String) : Option String :=
  (fs.filter (fun e => isSecretsKeyPath e.1)).findSome? (fun e =>
    match env.pubOf e.2 with
    | some pub => if pub = targetPublicKey then some e.1 else none
    | none => none)

/-- `SopsManager.checkKeyExpiry`: floor the policy at 180 days
(`maxAgeDays = max(maxAgeDays, 180)`) and fail when the key's age
strictly exceeds `maxAgeDays * 24h`. -/
def checkKeyExpiry (member : Member) (maxAgeDays : Int) (now : Int) : Except String Unit :=
  if now - member.Created > max maxAgeDays 180 * nsPerDay then
    .error "key has expired"
  else
    .ok ()

/-- `SopsManager.backupCurrentKey`: if the key file exists, copy its
bytes to the adjacent backup path. -/
def backupCurrentKey (keyPath backupPath : String) (st : RotState) : RotState :=
  match st.files.read keyPath with
  | some content => { st with files := st.files.write backupPath content }
  | none => st

/-- `SopsManager.handleRotationError`: best-effort restore of the key
file from the backup (when the backup exists), before propagating the
error. -/
def handleRotationError (keyPath backupPath : String) (st : RotState) : RotState :=
  match st.files.read backupPath with
  | some content => { st with files := st.files.write keyPath content }
  | none => st

/-- Replace the member `findMemberByID` points at (the first member with
the given ID): `currentMember.AgeKey = newPublicKey;
currentMember.Created = time.Now()`. -/
def updateFirstMember : List Member → String → String → Int → List Member
  | [], _, _, _ => []
  | member :: rest, u, pub, now =>
    if member.ID = u then { member with AgeKey := pub, Created := now } :: rest
    else member :: updateFirstMember rest u pub now

/-- The manifest after step 7 of rotation: the acting member's public
identity and Created timestamp replaced. -/
def rotatedManifest (m : Manifest) (u pub : String) (now : Int) : Manifest :=
  { m with Members := updateFirstMember m.Members u pub now }

/-- `SopsManager.executeKeyRotation`: generate the new key (writing it
under its content-derived name), remove the old key file, update the
member in the manifest and save it, then recompute and execute a full
plan; every failure from generation onward goes through
`handleRotationError`. -/
def executeKeyRotation (env : RotEnv) (m : Manifest) (u keyPath backupPath : String)
    (st : RotState) : Except (String × RotState) RotState :=
  let st := { st with log := st.log ++ ["age-keygen"] }
  match env.gen with
  | .error e =>
    .error ("failed to generate new key: " ++ e, handleRotationError keyPath backupPath st)
  | .ok (newPub, newPriv) =>
    let st := { st with files := st.files.write (keyPathForPrivateKey env newPriv) newPriv }
    let st := { st with files := st.files.remove keyPath }
    let m' := rotatedManifest m u newPub env.now
    if env.saveOK then
      let st := { st with manifestFile := some m' }
      match ComputePlan env.planEnv m' with
      | .error e =>
        .error ("failed to compute plan: " ++ e, handleRotationError keyPath backupPath st)
      | .ok _ =>
        let st := { st with log := st.log ++ ["sops-execute"] }
        if env.execOK then .ok st
        else .error ("failed to re-encrypt files", handleRotationError keyPath backupPath st)
    else
      .error ("failed to save manifest", handleRotationError keyPath backupPath st)

/-- The deferred `os.Remove(backupPath)` that runs on every exit of
`RotateKey` after the backup was made. -/
def removeBackup (backupPath : String) (st : RotState) : RotState :=
  { st with files := st.files.remove backupPath }

/-- `SopsManager.RotateKey`: `prepareKeyRotation` (load manifest, resolve
the acting user, locate their member, enforce key-age policy unless
forced), locate the private key file by public identity, back it up, and
run `executeKeyRotation`; the backup file is removed on exit. -/
def RotateKey (env : RotEnv) (force : Bool) (st : RotState) :
    Except (String × RotState) RotState :=
  match st.manifestFile with
  | none => .error ("failed to load manifest", st)
  | some m =>
    match env.currentUser with
    | none => .error ("failed to get current user", st)
    | some u =>
      match m.Members.find? (fun member => member.ID == u) with
      | none => .error ("current user " ++ u ++ " not found in team", st)
      | some currentMember =>
        match if force then .ok () else
            checkKeyExpiry currentMember m.Settings.MaxKeyAgeDays env.now with
        | .error e => .error (e, st)
        | .ok _ =>
          match findKeyForPublicKey env st.files currentMember.AgeKey with
          | none => .error ("failed to find current user's private key", st)
          | some keyPath =>
            let backupPath := keyPath ++ ".backup"
            let st := backupCurrentKey keyPath backupPath st
            match executeKeyRotation env m u keyPath backupPath st with
            | .ok st' => .ok (removeBackup backupPath st')
            | .error (e, st') => .error (e, removeBackup backupPath st')

/-! ## Member management (`manager.go` `AddMember`) -/

/-- The scope loop of `AddMember`: append the new ID to the member list
of the first scope named `default` and stop (`break`); all other scopes
are untouched. -/
def addToDefaultScope : List Scope → String → List Scope
  | [], _ => []
  | s :: rest, id =>
    if s.Name = "default" then { s with Members := s.Members ++ [id] } :: rest
    else s :: addToDefaultScope rest id

/-- `SopsManager.AddMember`: load the manifest; reject an ID already
present among the members (leaving the file untouched); otherwise append
the new member with a fresh Created timestamp, add the ID to the
`default` scope, and save. -/
def AddMember (id ageKey : String) (now : Int) (file : Option Manifest) :
    Except (String × Option Manifest) (Option Manifest) :=
  match file with
  | none => .error ("failed to load manifest", file)
  | some m =>
    if (m.Members.map (·.ID)).contains id then
      .error ("member " ++ id ++ " already exists", file)
    else
      let m' := { m with
        Members := m.Members ++ [{ ID := id, AgeKey := ageKey, Created := now }],
        Scopes := addToDefaultScope m.Scopes id }
      .ok (some m')

/-! ## Big-step relation for `ComputePlan` (C9)

A relational presentation of the planner: one derivation per run of
`ComputePlan` over the same manifest and snapshot.  Determinism of the
planner is functionality of this relation, and every result of the
functional embedding is a run of it. -/

/-- One scope's contribution to the plan. -/
inductive ScopePlanR (env : PlanEnv) (m : Manifest) : Scope → List Action → Prop where
  | skip (s : Scope) (files : List String)
      (hfiles : findMatchingFiles env s.Patterns = .ok files)
      (hmembers : m.GetScopeMembers s.Name = .ok []) :
      ScopePlanR env m s (createSkipActions files s.Name)
  | act (s : Scope) (files : List String) (members : List Member)
      (hfiles : findMatchingFiles env s.Patterns = .ok files)
      (hmembers : m.GetScopeMembers s.Name = .ok members)
      (hne : members ≠ []) :
      ScopePlanR env m s (createFileActions env files s.Name (extractAgeKeys members))

/-- The whole plan, scope by scope in manifest order. -/
inductive PlanR (env : PlanEnv) (m : Manifest) : List Scope → List Action → Prop where
  | nil : PlanR env m [] []
  | cons (s : Scope) (ss : List Scope) (actions rest : List Action)
      (hs : ScopePlanR env m s actions) (hrest : PlanR env m ss rest) :
      PlanR env m (s :: ss) (actions ++ rest)

/-! ## Concrete fixtures

Small concrete instances used by the evaluation theorems and witnesses
below. -/

/-- A plan whose first two actions are skips (a scope with no members)
followed by two encrypt actions. -/
def c1Plan : List Action :=
  [ { type := .skip, File := "s1", Scope := "empty", Recipients := [],
      Description := "No members in scope" },
    { type := .skip, File := "s2", Scope := "empty", Recipients := [],
      Description := "No members in scope" },
    { type := .encrypt, File := "f1", Scope := "team", Recipients := ["age1alice"],
      Description := "Encrypt with current team" },
    { type := .encrypt, File := "f2", Scope := "team", Recipients := ["age1alice"],
      Description := "Encrypt with current team" } ]

/-- An external tool run that encrypts `f1` successfully (action index 2)
and exits non-zero on the next action without touching its file. -/
def c1Tool : Tool := fun i _ fs =>
  if i = 2 then .succeeded (fs.write "f1" "SOPS-ENCRYPTED-1") else .failed fs

/-- The pre-Execute filesystem for the C1 run. -/
def c1FS : FS := [("f1", "plain-1"), ("f2", "plain-2")]

/-- The filesystem `Execute` leaves behind in the C1 run. -/
def c1After : FS := [("f1", "SOPS-ENCRYPTED-1"), ("f2", "plain-2")]

/-- A snapshot where `*.yaml` matches `a.yaml` and `b.yaml`, the
overlapping pattern `a*` matches `a.yaml` again, and nothing is a
directory or already encrypted. -/
def envW : PlanEnv :=
  { globResult := fun pat =>
      if pat = "*.yaml" then .ok ["a.yaml", "b.yaml"]
      else if pat = "a*" then .ok ["a.yaml"]
      else .ok [],
    isDir := fun _ => false,
    isSops := fun _ => false }

/-- A manifest whose two scopes both match `a.yaml` (the `default` scope
through two overlapping patterns). -/
def mW : Manifest :=
  { Members := [⟨"alice", "age1alice", 0⟩, ⟨"bob", "age1bob", 0⟩],
    Scopes := [⟨"default", ["*.yaml", "a*"], ["alice", "bob"]⟩,
               ⟨"extra", ["a*"], ["bob"]⟩],
    Settings := ⟨"3.8.0", 180⟩ }

/-- The plan `ComputePlan envW mW` produces. -/
def c9PlanW : List Action :=
  [ { Recipients := ["age1alice", "age1bob"], File := "a.yaml", Scope := "default",
      Description := "Encrypt with current team", type := .encrypt },
    { Recipients := ["age1alice", "age1bob"], File := "b.yaml", Scope := "default",
      Description := "Encrypt with current team", type := .encrypt },
    { Recipients := ["age1bob"], File := "a.yaml", Scope := "extra",
      Description := "Encrypt with current team", type := .encrypt } ]

/-- A manifest whose second scope references a member ID (`ghost`) that
is not in `Members`. -/
def mBad : Manifest :=
  { Members := [⟨"alice", "age1alice", 0⟩],
    Scopes := [⟨"default", [], ["alice"]⟩, ⟨"broken", [], ["ghost"]⟩],
    Settings := ⟨"3.8.0", 180⟩ }

/-- A one-member manifest (key created at time 0) for the rotation
runs. -/
def mRot : Manifest :=
  { Members := [⟨"alice", "age1alice", 0⟩],
    Scopes := [],
    Settings := ⟨"3.8.0", 180⟩ }

/-- A rotation environment whose clock is 200 days after `alice`'s key
was created — past the 180-day policy. -/
def rotEnvExpired : RotEnv :=
  { currentUser := some "alice",
    pubOf := fun _ => none,
    gen := .error "age-keygen unavailable",
    keyHash := fun _ => "abcde",
    saveOK := true,
    planEnv := envW,
    execOK := true,
    now := 200 * nsPerDay }

/-- The rotation state for the concrete runs: the manifest file holds
`mRot` and the secrets directory holds `alice`'s key file. -/
def rotStW : RotState :=
  { manifestFile := some mRot,
    files := [(".secrets/key-11111.txt", "PRIV-OLD")],
    log := [] }

/-- A rotation environment where everything works until the executor
fails: key generation succeeds, the manifest save succeeds, and the
re-encryption `Execute` exits non-zero. -/
def rotEnvExecFail : RotEnv :=
  { currentUser := some "alice",
    pubOf := fun priv => if priv = "PRIV-OLD" then some "age1alice" else some "age1new",
    gen := .ok ("age1new", "PRIV-NEW"),
    keyHash := fun _ => "fffff",
    saveOK := true,
    planEnv := envW,
    execOK := false,
    now := 10 * nsPerDay }

/-! # Theorems -/

/-! ## Filesystem lemmas -/

namespace FS

theorem read_cons (a : String × String) (l : FS) (p : String) :
    read (a :: l) p = if a.1 = p then some a.2 else read l p := by
  by_cases h : a.1 = p
  · unfold read
    rw [List.find?_cons_of_pos _ (by simp [h])]
    simp [h]
  · unfold read
    rw [List.find?_cons_of_neg _ (by simp [h])]
    simp [read, h]

theorem remove_cons (a : String × String) (l : FS) (q : String) :
    remove (a :: l) q = if a.1 = q then remove l q else a :: remove l q := by
  by_cases h : a.1 = q <;> simp [remove, List.filter_cons, h]

theorem read_remove (fs : FS) (p q : String) :
    (fs.remove q).read p = if p = q then none else fs.read p := by
  induction fs with
  | nil => simp [read, remove]
  | cons a t ih =>
    rw [remove_cons, read_cons]
    by_cases haq : a.1 = q
    · rw [if_pos haq, ih]
      by_cases hpq : p = q
      · simp [hpq]
      · rw [if_neg hpq, if_neg hpq, if_neg (by rw [haq]; exact Ne.symm hpq)]
    · rw [if_neg haq, read_cons, ih]
      by_cases hap : a.1 = p
      · have hpq : ¬ p = q := fun h => haq (h ▸ hap)
        simp [hap, hpq]
      · simp [hap]

theorem read_write_self (fs : FS) (p v : String) :
    (fs.write p v).read p = some v := by
  rw [write, read_cons]
  simp

theorem read_write_other (fs : FS) {p q : String} (v : String) (hpq : p ≠ q) :
    (fs.write q v).read p = fs.read p := by
  rw [write, read_cons, if_neg (Ne.symm hpq), read_remove, if_neg hpq]

theorem read_remove_other (fs : FS) {p q : String} (hpq : p ≠ q) :
    (fs.remove q).read p = fs.read p := by
  rw [read_remove, if_neg hpq]

theorem read_remove_self (fs : FS) (p : String) :
    (fs.remove p).read p = none := by
  rw [read_remove, if_pos rfl]

theorem exists?_iff_read (fs : FS) (p : String) :
    fs.exists? p = true ↔ ∃ v, fs.read p = some v := by
  constructor
  · intro h
    simp only [exists?, List.any_eq_true] at h
    obtain ⟨e, he, hep⟩ := h
    have : fs.find? (fun e => e.1 == p) |>.isSome := by
      exact List.find?_isSome.mpr ⟨e, he, hep⟩
    obtain ⟨e', he'⟩ := Option.isSome_iff_exists.mp this
    exact ⟨e'.2, by simp [read, he']⟩
  · rintro ⟨v, hv⟩
    simp only [read, Option.map_eq_some'] at hv
    obtain ⟨e, he, _⟩ := hv
    have h1 := List.find?_some he
    have h2 := List.mem_of_find?_eq_some he
    exact List.any_eq_true.mpr ⟨e, h2, h1⟩

end FS

/-! ## C1 — Execute's rollback versus plans containing Skip actions -/

/-- C1: the claim states that when the external tool fails partway,
`Execute` restores every file that existed before and was targeted by an
executed-so-far non-skip action to its pre-Execute bytes.  The code rolls
back the slice `plan.Actions[:executedActions+1]`, where
`executedActions` counts only the non-skip actions executed so far, while
backups are keyed by the absolute plan index — so any Skip action ahead
of the failure point shifts the slice and drops executed actions from the
rollback.  Concretely: a plan of two Skips followed by two Encrypts, with
the tool succeeding on `f1` (index 2) and failing on `f2` (index 3),
rolls back only `plan.Actions[:2]` — the two Skips — and leaves the
already-encrypted `f1` unrestored: after Execute returns the error, `f1`
still holds `SOPS-ENCRYPTED-1`, not its pre-Execute content
`plain-1`. -/
theorem C1_rollback_skips_executed_actions :
    Execute c1Tool c1Plan c1FS = .error c1After ∧
    c1FS.read "f1" = some "plain-1" ∧
    c1After.read "f1" = some "SOPS-ENCRYPTED-1" := by
  refine ⟨by decide, by decide, by decide⟩

/-! ## C2 — Re-encryption strategy and plaintext exposure -/

/-- C2, counterexample: the in-tree `executor.go` `reencryptFile`
does not use the tool's native re-key: it decrypts with `sops -d` and
then writes the decrypted plaintext to `<file>.tmp` with `os.WriteFile`
— a write performed by the sopsistry process itself, outside the
external tool's process boundary.  Concretely, re-keying
`db.sops.yaml` writes its plaintext to `db.sops.yaml.tmp` on disk. -/
theorem C2_plaintext_written_to_disk :
    ("db.sops.yaml.tmp", "TOP-SECRET") ∈
      hostWrites (reencryptFileOps "sops" "/tmp/cfg.yaml" "db.sops.yaml"
        ["age1alice"] "TOP-SECRET") := by
  decide

/-- C2, amended: of the two `reencryptFile` implementations in the
repository, only the `src/unnamed/part_011` variant satisfies the claim:
it performs exactly one external-tool invocation — the native
`sops --rotate --age <recipients> <file>` re-key — and the sopsistry
process writes nothing to disk, while the `executor.go` variant's own
writes are the temporary SOPS config and, crucially, the decrypted
plaintext at `<file>.tmp`. -/
theorem C2_native_rotate_writes_no_plaintext (sopsPath cfg file plaintext : String)
    (recipients : List String) :
    hostWrites (reencryptFileNativeOps sopsPath file recipients) = [] ∧
    reencryptFileNativeOps sopsPath file recipients =
      [ .toolRun [] [sopsPath, "--rotate", "--age",
          String.intercalate "," recipients, file] ] ∧
    hostWrites (reencryptFileOps sopsPath cfg file recipients plaintext) =
      [ (file ++ ".tmp", plaintext), (cfg, sopsConfigContent recipients) ] := by
  refine ⟨rfl, rfl, ?_⟩
  simp [hostWrites, reencryptFileOps, encryptFileOps]

/-! ## C5 — Key-expiry audit classification -/

/-- C5: the audit classifies every member exactly as the claim's
classification: age > maxAge → Expired, maxAge − 14d < age ≤ maxAge →
Warning, otherwise OK, where the audit uses
`maxAge = max(Settings.MaxKeyAgeDays, 180) * 24h`; and on the claim's
concrete instance (MaxKeyAgeDays = 180): a 30-day-old key is OK, a
170-day-old key is Warning with "expires in 10 days", and a 200-day-old
key is Expired with "expired 20 days ago".  The audit is a pure function
of the manifest and the clock (the Go code only loads the manifest and
prints), so it mutates nothing. -/
theorem C5_expiry_classification :
    (∀ (member : Member) (maxAgeDays now : Int),
      (checkMemberKeyStatus member maxAgeDays now).class =
        specClassify (now - member.Created) (maxAgeDays * nsPerDay) (14 * nsPerDay)) ∧
    (∀ (m : Manifest) (now : Int),
      (CheckKeyExpiry m now).statuses =
        m.Members.map (fun member =>
          checkMemberKeyStatus member (max m.Settings.MaxKeyAgeDays 180) now)) ∧
    checkMemberKeyStatus ⟨"alice", "age1a", 0⟩ 180 (30 * nsPerDay) = .fresh 30 ∧
    checkMemberKeyStatus ⟨"alice", "age1a", 0⟩ 180 (170 * nsPerDay) = .warning 10 ∧
    checkMemberKeyStatus ⟨"alice", "age1a", 0⟩ 180 (200 * nsPerDay) = .expired 20 := by
  refine ⟨?_, fun m now => rfl, by decide, by decide, by decide⟩
  intro member maxAgeDays now
  unfold checkMemberKeyStatus specClassify
  by_cases h1 : now - member.Created > maxAgeDays * nsPerDay
  · rw [if_pos h1, if_pos h1]
    rfl
  · rw [if_neg h1, if_neg h1]
    by_cases h2 : now - member.Created > maxAgeDays * nsPerDay - 14 * nsPerDay
    · rw [if_pos h2, if_pos ⟨h2, not_lt.mp h1⟩]
      rfl
    · rw [if_neg h2, if_neg (fun hc => h2 hc.1)]
      rfl

/-! ## Planner lemmas -/

theorem globLoop_files_not_seen (env : PlanEnv) (ms : List String) :
    ∀ (seen : List String), ∀ f ∈ (globLoop env ms seen).1, f ∉ seen := by
  induction ms with
  | nil =>
    intro seen f hf
    simp [globLoop] at hf
  | cons mch ms ih =>
    intro seen f hf
    simp only [globLoop] at hf
    cases hc : shouldIncludeFile env mch seen with
    | false =>
      rw [hc] at hf
      simp only [Bool.false_eq_true, if_false] at hf
      exact ih seen f hf
    | true =>
      rw [hc] at hf
      simp only [if_true, List.mem_cons] at hf
      rcases hf with h1 | h2
      · subst h1
        simp only [shouldIncludeFile, Bool.and_eq_true, Bool.not_eq_true'] at hc
        intro hmem
        exact absurd hmem (by simpa using hc.1)
      · intro hmem
        exact ih (mch :: seen) f h2 (List.mem_cons_of_mem _ hmem)

theorem globLoop_files_nodup (env : PlanEnv) (ms : List String) :
    ∀ (seen : List String), (globLoop env ms seen).1.Nodup := by
  induction ms with
  | nil =>
    intro seen
    simp [globLoop]
  | cons mch ms ih =>
    intro seen
    simp only [globLoop]
    cases hc : shouldIncludeFile env mch seen with
    | false =>
      simp only [Bool.false_eq_true, if_false]
      exact ih seen
    | true =>
      simp only [if_true]
      refine List.nodup_cons.mpr ⟨?_, ih (mch :: seen)⟩
      intro hmem
      exact globLoop_files_not_seen env ms (mch :: seen) mch hmem (List.mem_cons_self _ _)

theorem mem_globLoop_seen (env : PlanEnv) (ms : List String) :
    ∀ (seen : List String) (x : String),
      x ∈ (globLoop env ms seen).2 ↔ x ∈ (globLoop env ms seen).1 ∨ x ∈ seen := by
  induction ms with
  | nil =>
    intro seen x
    simp [globLoop]
  | cons mch ms ih =>
    intro seen x
    simp only [globLoop]
    cases hc : shouldIncludeFile env mch seen with
    | false =>
      simp only [Bool.false_eq_true, if_false]
      exact ih seen x
    | true =>
      simp only [if_true, List.mem_cons]
      rw [ih (mch :: seen) x]
      simp only [List.mem_cons]
      tauto

theorem patternsLoop_ok_nodup (env : PlanEnv) (pats : List String) :
    ∀ (seen files : List String), patternsLoop env pats seen = .ok files →
      files.Nodup ∧ ∀ f ∈ files, f ∉ seen := by
  induction pats with
  | nil =>
    intro seen files h
    simp only [patternsLoop] at h
    cases h
    simp
  | cons pat ps ih =>
    intro seen files h
    simp only [patternsLoop] at h
    cases hg : env.globResult pat with
    | error e =>
      rw [hg] at h
      simp at h
    | ok ms =>
      rw [hg] at h
      simp only at h
      cases hr : patternsLoop env ps (globLoop env ms seen).2 with
      | error e =>
        rw [hr] at h
        simp [Except.map] at h
      | ok rest =>
        rw [hr] at h
        simp only [Except.map, Except.ok.injEq] at h
        subst h
        obtain ⟨hnd, hsub⟩ := ih _ _ hr
        constructor
        · refine (globLoop_files_nodup env ms seen).append hnd ?_
          intro a ha har
          exact hsub a har ((mem_globLoop_seen env ms seen a).mpr (Or.inl ha))
        · intro f hf
          rcases List.mem_append.mp hf with h1 | h2
          · exact globLoop_files_not_seen env ms seen f h1
          · intro hseen
            exact hsub f h2 ((mem_globLoop_seen env ms seen f).mpr (Or.inr hseen))

theorem resolveScopeMembers_error_of_missing (m : Manifest) (ids : List String) :
    ∀ id ∈ ids, m.GetMemberAgeKey id = none →
      ∃ e, resolveScopeMembers m ids = .error e := by
  induction ids with
  | nil =>
    intro id h
    cases h
  | cons hd tl ih =>
    intro id hmem hnone
    cases hk : m.GetMemberAgeKey hd with
    | none =>
      exact ⟨"member " ++ hd ++ " not found", by simp [resolveScopeMembers, hk]⟩
    | some key =>
      rcases List.mem_cons.mp hmem with h1 | h2
      · subst h1
        rw [hk] at hnone
        cases hnone
      · obtain ⟨e, he⟩ := ih id h2 hnone
        refine ⟨e, ?_⟩
        simp [resolveScopeMembers, hk, he, Except.map]

theorem resolveScopeMembers_ok_ids (m : Manifest) (ids : List String) :
    ∀ members, resolveScopeMembers m ids = .ok members →
      members.map Member.ID = ids := by
  induction ids with
  | nil =>
    intro members h
    simp only [resolveScopeMembers] at h
    cases h
    rfl
  | cons hd tl ih =>
    intro members h
    simp only [resolveScopeMembers] at h
    cases hk : m.GetMemberAgeKey hd with
    | none =>
      rw [hk] at h
      simp at h
    | some key =>
      rw [hk] at h
      cases hr : resolveScopeMembers m tl with
      | error e =>
        rw [hr] at h
        simp [Except.map] at h
      | ok rest =>
        rw [hr] at h
        simp only [Except.map, Except.ok.injEq] at h
        subst h
        simp [ih rest hr]

theorem find?_scope_self (scopes : List Scope) (s : Scope)
    (hnd : (scopes.map Scope.Name).Nodup) (hs : s ∈ scopes) :
    scopes.find? (fun t => t.Name == s.Name) = some s := by
  induction scopes with
  | nil => cases hs
  | cons a t ih =>
    rcases List.mem_cons.mp hs with h1 | h2
    · subst h1
      exact List.find?_cons_of_pos _ (by simp)
    · have hns : s.Name ∈ t.map Scope.Name := List.mem_map_of_mem _ h2
      have han : a.Name ∉ t.map Scope.Name := (List.nodup_cons.mp hnd).1
      have hne : a.Name ≠ s.Name := fun h => han (h ▸ hns)
      rw [List.find?_cons_of_neg _ (by simp [hne])]
      exact ih (List.nodup_cons.mp hnd).2 h2

theorem planScopeActions_error_of_missing (env : PlanEnv) (m : Manifest) (s : Scope)
    (id : String) (hnames : (m.Scopes.map Scope.Name).Nodup) (hs : s ∈ m.Scopes)
    (hid : id ∈ s.Members) (hmissing : m.GetMemberAgeKey id = none) :
    ∃ e, planScopeActions env s m = .error e := by
  have hfind := find?_scope_self m.Scopes s hnames hs
  obtain ⟨e, he⟩ := resolveScopeMembers_error_of_missing m s.Members id hid hmissing
  have hget : m.GetScopeMembers s.Name = .error e := by
    simp [Manifest.GetScopeMembers, hfind, he]
  cases hf : findMatchingFiles env s.Patterns with
  | error e' =>
    exact ⟨"failed to find files for scope " ++ s.Name ++ ": " ++ e',
      by simp [planScopeActions, hf]⟩
  | ok files =>
    exact ⟨"failed to get members for scope " ++ s.Name ++ ": " ++ e,
      by simp [planScopeActions, hf, hget]⟩

theorem scopesLoop_error_of_scope_error (env : PlanEnv) (m : Manifest) (ss : List Scope) :
    ∀ s ∈ ss, (∃ e, planScopeActions env s m = .error e) →
      ∃ e, scopesLoop env m ss = .error e := by
  induction ss with
  | nil =>
    intro s h
    cases h
  | cons a t ih =>
    intro s hmem ⟨e, he⟩
    rcases List.mem_cons.mp hmem with h1 | h2
    · subst h1
      exact ⟨e, by simp [scopesLoop, he]⟩
    · cases ha : planScopeActions env a m with
      | error e' =>
        exact ⟨e', by simp [scopesLoop, ha]⟩
      | ok actions =>
        obtain ⟨e', he'⟩ := ih s h2 ⟨e, he⟩
        exact ⟨e', by simp [scopesLoop, ha, he', Except.map]⟩

theorem planScopeActions_ok_spec (env : PlanEnv) (s : Scope) (m : Manifest)
    (actions : List Action) (h : planScopeActions env s m = .ok actions) :
    ∀ a ∈ actions, a.Scope = s.Name ∧
      (a.Recipients = [] ↔ a.type = .skip) ∧
      (a.type ≠ .skip → ∃ members, m.GetScopeMembers s.Name = .ok members ∧
        members ≠ [] ∧ a.Recipients = extractAgeKeys members) := by
  intro a ha
  simp only [planScopeActions] at h
  cases hf : findMatchingFiles env s.Patterns with
  | error e =>
    rw [hf] at h
    simp at h
  | ok files =>
    rw [hf] at h
    simp only at h
    cases hg : m.GetScopeMembers s.Name with
    | error e =>
      rw [hg] at h
      simp at h
    | ok members =>
      rw [hg] at h
      simp only at h
      by_cases hlen : members.length = 0
      · rw [if_pos hlen] at h
        cases h
        have hmem := List.mem_map.mp ha
        obtain ⟨file, _, hfile⟩ := hmem
        subst hfile
        simp [createSkipActions]
      · rw [if_neg hlen] at h
        cases h
        have hne : members ≠ [] := fun hh => hlen (by simp [hh])
        obtain ⟨file, _, hfile⟩ := List.mem_map.mp ha
        subst hfile
        by_cases hsops : env.isSops file = true
        · rw [if_pos hsops]
          refine ⟨rfl, ?_, ?_⟩
          · simp only [extractAgeKeys]
            constructor
            · intro hrec
              exact absurd (List.map_eq_nil_iff.mp hrec) hne
            · intro htype
              cases htype
          · intro _
            exact ⟨members, rfl, hne, rfl⟩
        · rw [if_neg hsops]
          refine ⟨rfl, ?_, ?_⟩
          · simp only [extractAgeKeys]
            constructor
            · intro hrec
              exact absurd (List.map_eq_nil_iff.mp hrec) hne
            · intro htype
              cases htype
          · intro _
            exact ⟨members, rfl, hne, rfl⟩

theorem scopesLoop_ok_spec (env : PlanEnv) (m : Manifest) (ss : List Scope) :
    ∀ actions, scopesLoop env m ss = .ok actions →
      ∀ a ∈ actions, (a.Recipients = [] ↔ a.type = .skip) ∧
        (a.type ≠ .skip → ∃ members, m.GetScopeMembers a.Scope = .ok members ∧
          members ≠ [] ∧ a.Recipients = extractAgeKeys members) := by
  induction ss with
  | nil =>
    intro actions h
    simp only [scopesLoop] at h
    cases h
    intro a ha
    cases ha
  | cons s t ih =>
    intro actions h
    simp only [scopesLoop] at h
    cases hp : planScopeActions env s m with
    | error e =>
      rw [hp] at h
      simp at h
    | ok as =>
      rw [hp] at h
      cases hr : scopesLoop env m t with
      | error e =>
        rw [hr] at h
        simp [Except.map] at h
      | ok rest =>
        rw [hr] at h
        simp only [Except.map, Except.ok.injEq] at h
        subst h
        intro a ha
        rcases List.mem_append.mp ha with h1 | h2
        · obtain ⟨hscope, hiff, himp⟩ := planScopeActions_ok_spec env s m as hp a h1
          exact ⟨hiff, by rw [hscope]; exact himp⟩
        · exact ih rest hr a h2

/-! ## C6 — an unresolved member ID is fatal to ComputePlan -/

/-- C6: if any scope of the manifest references a member ID with no
matching entry in `Manifest.Members`, `ComputePlan` fails with an error —
the `Except` result carries no partial plan — no matter how many earlier
scopes resolved; and whenever `GetScopeMembers` succeeds, the resolved
member list follows exactly the order of the referenced IDs in
`Scope.Members` of the scope found under that name.  Scope names are
unique (the data model's `Scope.Name (unique)` invariant), which makes
"the scope" well-defined for the by-name lookup. -/
theorem C6_unresolved_member_is_fatal (env : PlanEnv) (m : Manifest) (s : Scope) (id : String)
    (hnames : (m.Scopes.map Scope.Name).Nodup)
    (hs : s ∈ m.Scopes) (hid : id ∈ s.Members)
    (hmissing : m.GetMemberAgeKey id = none) :
    (∃ e, ComputePlan env m = .error e) ∧
    (∀ name members, m.GetScopeMembers name = .ok members →
      ∃ t, m.Scopes.find? (fun t => t.Name == name) = some t ∧
        members.map Member.ID = t.Members) := by
  constructor
  · exact scopesLoop_error_of_scope_error env m m.Scopes s hs
      (planScopeActions_error_of_missing env m s id hnames hs hid hmissing)
  · intro name members h
    simp only [Manifest.GetScopeMembers] at h
    cases hfind : m.Scopes.find? (fun t => t.Name == name) with
    | none =>
      rw [hfind] at h
      simp at h
    | some t =>
      rw [hfind] at h
      exact ⟨t, rfl, resolveScopeMembers_ok_ids m t.Members members h⟩

/-- Witness for C6 at a concrete input: `mBad`'s `broken` scope
references `ghost`, which is not a member. -/
theorem C6_witness :
    (∃ e, ComputePlan envW mBad = .error e) ∧
    (∀ name members, mBad.GetScopeMembers name = .ok members →
      ∃ t, mBad.Scopes.find? (fun t => t.Name == name) = some t ∧
        members.map Member.ID = t.Members) :=
  C6_unresolved_member_is_fatal envW mBad ⟨"broken", [], ["ghost"]⟩ "ghost"
    (by decide) (by decide) (by decide) (by decide)

/-! ## C7 — recipients are empty exactly on Skip actions -/

/-- C7: in every successfully returned plan, an action's recipient
list is empty iff the action is a Skip, and every non-skip action carries
the full (non-empty) recipient list of its scope, in scope-member order;
moreover a scope resolving to zero members yields exactly one Skip
action per matched file, each with an empty recipient list. -/
theorem C7_recipients_empty_iff_skip (env : PlanEnv) (m : Manifest) (actions : List Action)
    (h : ComputePlan env m = .ok actions) :
    (∀ a ∈ actions, (a.Recipients = [] ↔ a.type = .skip) ∧
      (a.type ≠ .skip → ∃ members, m.GetScopeMembers a.Scope = .ok members ∧
        members ≠ [] ∧ a.Recipients = extractAgeKeys members)) ∧
    (∀ (s : Scope) (files : List String), m.GetScopeMembers s.Name = .ok [] →
      findMatchingFiles env s.Patterns = .ok files →
      planScopeActions env s m = .ok (files.map (fun file =>
        { type := .skip, File := file, Scope := s.Name, Recipients := [],
          Description := "No members in scope" }))) := by
  constructor
  · exact scopesLoop_ok_spec env m m.Scopes actions h
  · intro s files hmembers hfiles
    simp [planScopeActions, hfiles, hmembers, createSkipActions]

/-- Witness for C7 at a concrete input: the plan computed for `mW`. -/
theorem C7_witness :
    (∀ a ∈ c9PlanW, (a.Recipients = [] ↔ a.type = .skip) ∧
      (a.type ≠ .skip → ∃ members, mW.GetScopeMembers a.Scope = .ok members ∧
        members ≠ [] ∧ a.Recipients = extractAgeKeys members)) ∧
    (∀ (s : Scope) (files : List String), mW.GetScopeMembers s.Name = .ok [] →
      findMatchingFiles envW s.Patterns = .ok files →
      planScopeActions envW s mW = .ok (files.map (fun file =>
        { type := .skip, File := file, Scope := s.Name, Recipients := [],
          Description := "No members in scope" }))) :=
  C7_recipients_empty_iff_skip envW mW c9PlanW (by decide)

/-! ## C8 — per-scope glob de-duplication -/

/-- C8: the per-scope file list the planner computes from a scope's
patterns never contains a path twice, however much the glob patterns
overlap; and the `seen` set is scoped to one scope, not the plan: in the
concrete two-scope run, `a.yaml` — matched by both scopes — still gets
one action in each scope (`default` and `extra`). -/
theorem C8_per_scope_dedup (env : PlanEnv) (patterns files : List String)
    (h : findMatchingFiles env patterns = .ok files) :
    files.Nodup ∧
    (ComputePlan envW mW).map (fun actions =>
        (actions.filter (fun a => a.File == "a.yaml")).map (·.Scope)) =
      .ok ["default", "extra"] := by
  constructor
  · exact (patternsLoop_ok_nodup env patterns [] files h).1
  · decide

/-- Witness for C8 at a concrete input: two overlapping patterns both
matching `a.yaml` produce it once. -/
theorem C8_witness :
    (["a.yaml", "b.yaml"] : List String).Nodup ∧
    (ComputePlan envW mW).map (fun actions =>
        (actions.filter (fun a => a.File == "a.yaml")).map (·.Scope)) =
      .ok ["default", "extra"] :=
  C8_per_scope_dedup envW ["*.yaml", "a*"] ["a.yaml", "b.yaml"] (by decide)

/-! ## C9 — ComputePlan is deterministic -/

theorem scopePlanR_functional (env : PlanEnv) (m : Manifest) (s : Scope)
    (as₁ as₂ : List Action) (h₁ : ScopePlanR env m s as₁) (h₂ : ScopePlanR env m s as₂) :
    as₁ = as₂ := by
  cases h₁ with
  | skip files₁ hf₁ hm₁ =>
    cases h₂ with
    | skip files₂ hf₂ hm₂ =>
      have : files₁ = files₂ := by
        rw [hf₁] at hf₂
        exact Except.ok.inj hf₂
      rw [this]
    | act files₂ members₂ hf₂ hm₂ hne₂ =>
      rw [hm₁] at hm₂
      exact absurd (Except.ok.inj hm₂).symm hne₂
  | act files₁ members₁ hf₁ hm₁ hne₁ =>
    cases h₂ with
    | skip files₂ hf₂ hm₂ =>
      rw [hm₁] at hm₂
      exact absurd (Except.ok.inj hm₂) hne₁
    | act files₂ members₂ hf₂ hm₂ hne₂ =>
      have hf : files₁ = files₂ := by
        rw [hf₁] at hf₂
        exact Except.ok.inj hf₂
      have hm : members₁ = members₂ := by
        rw [hm₁] at hm₂
        exact Except.ok.inj hm₂
      rw [hf, hm]

theorem planR_functional (env : PlanEnv) (m : Manifest) (ss : List Scope) :
    ∀ p₁ p₂, PlanR env m ss p₁ → PlanR env m ss p₂ → p₁ = p₂ := by
  induction ss with
  | nil =>
    intro p₁ p₂ h₁ h₂
    cases h₁
    cases h₂
    rfl
  | cons s t ih =>
    intro p₁ p₂ h₁ h₂
    cases h₁ with
    | cons _ _ as₁ r₁ hs₁ hr₁ =>
      cases h₂ with
      | cons _ _ as₂ r₂ hs₂ hr₂ =>
        rw [scopePlanR_functional env m s as₁ as₂ hs₁ hs₂, ih r₁ r₂ hr₁ hr₂]

theorem scopesLoop_sound (env : PlanEnv) (m : Manifest) (ss : List Scope) :
    ∀ p, scopesLoop env m ss = .ok p → PlanR env m ss p := by
  induction ss with
  | nil =>
    intro p h
    simp only [scopesLoop] at h
    cases h
    exact PlanR.nil
  | cons s t ih =>
    intro p h
    simp only [scopesLoop] at h
    cases hp : planScopeActions env s m with
    | error e =>
      rw [hp] at h
      simp at h
    | ok as =>
      rw [hp] at h
      cases hr : scopesLoop env m t with
      | error e =>
        rw [hr] at h
        simp [Except.map] at h
      | ok rest =>
        rw [hr] at h
        simp only [Except.map, Except.ok.injEq] at h
        subst h
        refine PlanR.cons s t as rest ?_ (ih rest hr)
        simp only [planScopeActions] at hp
        cases hf : findMatchingFiles env s.Patterns with
        | error e =>
          rw [hf] at hp
          simp at hp
        | ok files =>
          rw [hf] at hp
          simp only at hp
          cases hg : m.GetScopeMembers s.Name with
          | error e =>
            rw [hg] at hp
            simp at hp
          | ok members =>
            rw [hg] at hp
            simp only at hp
            by_cases hlen : members.length = 0
            · rw [if_pos hlen] at hp
              cases hp
              have : members = [] := List.length_eq_zero.mp hlen
              subst this
              exact ScopePlanR.skip s files hf hg
            · rw [if_neg hlen] at hp
              cases hp
              exact ScopePlanR.act s files members hf hg
                (fun hh => hlen (by simp [hh]))

/-- C9: for a fixed manifest and a fixed snapshot, `ComputePlan` is
deterministic: each successful result is a run of the big-step planning
relation `PlanR`, and that relation is a partial function of its inputs —
any two runs over the same manifest and snapshot produce the same action
sequence (the actions compare with all their fields: type, file, scope,
recipients, description, and in order). -/
theorem C9_ComputePlan_deterministic (env : PlanEnv) (m : Manifest) :
    (∀ p, ComputePlan env m = .ok p → PlanR env m m.Scopes p) ∧
    (∀ p₁ p₂, PlanR env m m.Scopes p₁ → PlanR env m m.Scopes p₂ → p₁ = p₂) :=
  ⟨fun p h => scopesLoop_sound env m m.Scopes p h,
   fun p₁ p₂ h₁ h₂ => planR_functional env m m.Scopes p₁ p₂ h₁ h₂⟩

/-- Witness for C9 at a concrete input: two runs over `envW`/`mW` yield
the same plan. -/
theorem C9_witness : c9PlanW = c9PlanW :=
  (C9_ComputePlan_deterministic envW mW).2 c9PlanW c9PlanW
    ((C9_ComputePlan_deterministic envW mW).1 c9PlanW (by decide))
    ((C9_ComputePlan_deterministic envW mW).1 c9PlanW (by decide))

/-! ## Rotation lemmas -/

theorem self_ne_append_backup (s : String) : s ≠ s ++ ".backup" := by
  intro h
  have hl := congrArg String.length h
  rw [String.length_append] at hl
  simp at hl
  exact absurd hl (by decide)

theorem append_txt_ne_append_backup (x y : String) : x ++ ".txt" ≠ y ++ ".backup" := by
  intro h
  have hd := congrArg String.data h
  rw [String.data_append, String.data_append] at hd
  have hlast := congrArg List.getLast? hd
  rw [List.getLast?_append, List.getLast?_append] at hlast
  have h1 : ".txt".data.getLast? = some 't' := by decide
  have h2 : ".backup".data.getLast? = some 'p' := by decide
  rw [h1, h2] at hlast
  simp [Option.or] at hlast

/-- After `handleRotationError`, when the backup is present with content
`orig`, the key file reads `orig` again, the backup is untouched, and the
manifest file is untouched. -/
theorem handleRotationError_restores (keyPath backupPath orig : String) (st : RotState)
    (hne : keyPath ≠ backupPath) (hbackup : st.files.read backupPath = some orig) :
    (handleRotationError keyPath backupPath st).files.read keyPath = some orig ∧
    (handleRotationError keyPath backupPath st).files.read backupPath = some orig ∧
    (handleRotationError keyPath backupPath st).manifestFile = st.manifestFile := by
  unfold handleRotationError
  rw [hbackup]
  refine ⟨FS.read_write_self _ _ _, ?_, rfl⟩
  rw [FS.read_write_other _ _ (Ne.symm hne)]
  exact hbackup

/-- Every error exit of `executeKeyRotation` restores the key file from
the backup, leaves the backup file in place, and — when the failure came
after a successful manifest save — leaves the saved (rotated) manifest in
the manifest file. -/
theorem executeKeyRotation_error_restores (env : RotEnv) (m : Manifest)
    (u keyPath backupPath orig : String) (st : RotState)
    (hbackup : st.files.read backupPath = some orig)
    (hne1 : keyPath ≠ backupPath)
    (hne2 : ∀ priv, keyPathForPrivateKey env priv ≠ backupPath) :
    ∀ e st', executeKeyRotation env m u keyPath backupPath st = .error (e, st') →
      st'.files.read keyPath = some orig ∧
      st'.files.read backupPath = some orig ∧
      (∀ newPub newPriv, env.gen = .ok (newPub, newPriv) → env.saveOK = true →
        st'.manifestFile = some (rotatedManifest m u newPub env.now)) := by
  intro e st' h
  simp only [executeKeyRotation] at h
  cases hg : env.gen with
  | error ge =>
    rw [hg] at h
    simp only [Except.error.injEq, Prod.mk.injEq] at h
    obtain ⟨-, hst⟩ := h
    subst hst
    obtain ⟨hr1, hr2, hr3⟩ := handleRotationError_restores keyPath backupPath orig
      { st with log := st.log ++ ["age-keygen"] } hne1 hbackup
    refine ⟨hr1, hr2, ?_⟩
    intro newPub newPriv hgen _
    cases hgen
  | ok pair =>
    obtain ⟨newPub, newPriv⟩ := pair
    rw [hg] at h
    simp only at h
    have hb2 : (((st.files.write (keyPathForPrivateKey env newPriv) newPriv).remove
        keyPath).read backupPath) = some orig := by
      rw [FS.read_remove_other _ (Ne.symm hne1),
        FS.read_write_other _ _ (Ne.symm (hne2 newPriv)), hbackup]
    cases hs : env.saveOK with
    | false =>
      rw [hs] at h
      simp only [Bool.false_eq_true, if_false, Except.error.injEq, Prod.mk.injEq] at h
      obtain ⟨-, hst⟩ := h
      subst hst
      obtain ⟨hr1, hr2, _⟩ := handleRotationError_restores keyPath backupPath orig
        { st with
          log := st.log ++ ["age-keygen"],
          files := (st.files.write (keyPathForPrivateKey env newPriv) newPriv).remove keyPath }
        hne1 hb2
      refine ⟨hr1, hr2, ?_⟩
      intro newPub' newPriv' _ hsave
      cases hsave
    | true =>
      rw [hs] at h
      simp only [if_true] at h
      cases hcp : ComputePlan env.planEnv (rotatedManifest m u newPub env.now) with
      | error pe =>
        rw [hcp] at h
        simp only [Except.error.injEq, Prod.mk.injEq] at h
        obtain ⟨-, hst⟩ := h
        subst hst
        obtain ⟨hr1, hr2, hr3⟩ := handleRotationError_restores keyPath backupPath orig
          { st with
            log := st.log ++ ["age-keygen"],
            files := (st.files.write (keyPathForPrivateKey env newPriv) newPriv).remove keyPath,
            manifestFile := some (rotatedManifest m u newPub env.now) }
          hne1 hb2
        refine ⟨hr1, hr2, ?_⟩
        intro newPub' newPriv' hgen _
        cases hgen
        exact hr3
      | ok plan =>
        rw [hcp] at h
        simp only at h
        cases he : env.execOK with
        | true =>
          rw [he] at h
          simp at h
        | false =>
          rw [he] at h
          simp only [Bool.false_eq_true, if_false, Except.error.injEq, Prod.mk.injEq] at h
          obtain ⟨-, hst⟩ := h
          subst hst
          obtain ⟨hr1, hr2, hr3⟩ := handleRotationError_restores keyPath backupPath orig
            { st with
              log := (st.log ++ ["age-keygen"]) ++ ["sops-execute"],
              files := (st.files.write (keyPathForPrivateKey env newPriv) newPriv).remove keyPath,
              manifestFile := some (rotatedManifest m u newPub env.now) }
            hne1 hb2
          refine ⟨hr1, hr2, ?_⟩
          intro newPub' newPriv' hgen _
          cases hgen
          exact hr3

/-! ## C3 — rotation of an expired key without force mutates nothing -/

/-- C3: when the acting member's key age (`now − Created`) strictly
exceeds `max(Settings.MaxKeyAgeDays, 180) * 24h` and `force` is not set,
`RotateKey` returns the expiry error with the state it was given:
the manifest file is not written, no key file is created, removed or
modified, and no external tool ran (the invocation log is unchanged), so
in particular no plan was executed. -/
theorem C3_expired_key_blocks_rotation (env : RotEnv) (st : RotState) (m : Manifest)
    (member : Member) (u : String)
    (h1 : st.manifestFile = some m)
    (h2 : env.currentUser = some u)
    (h3 : m.Members.find? (fun mem => mem.ID == u) = some member)
    (h4 : env.now - member.Created > max m.Settings.MaxKeyAgeDays 180 * nsPerDay) :
    RotateKey env false st = .error ("key has expired", st) := by
  simp only [RotateKey, h1, h2, h3, checkKeyExpiry]
  rw [if_pos h4]
  rfl

/-- Witness for C3 at a concrete input: a 200-day-old key against the
180-day policy. -/
theorem C3_witness : RotateKey rotEnvExpired false rotStW = .error ("key has expired", rotStW) :=
  C3_expired_key_blocks_rotation rotEnvExpired rotStW mRot ⟨"alice", "age1alice", 0⟩ "alice"
    rfl rfl (by decide) (by decide)

/-! ## C4 — rotation failures restore the key file, not the manifest -/

/-- C4: once rotation proceeds past its preparation (the manifest
loads, the acting user's member is found, the key-age gate passes, the
private key file is located and backed up), every failing step — key
generation, manifest save, re-planning, or re-encryption — surfaces as an
error whose final state has the private key file restored to its exact
pre-rotation content (and the adjacent `.backup` file removed by the
deferred cleanup); and when the failure occurred after the manifest was
saved (generation and save succeeded), the manifest file still holds the
rotated manifest — the persisted new public identity and Created
timestamp are not rolled back. -/
theorem C4_rotation_failure_restores_key_file (env : RotEnv) (st : RotState) (m : Manifest)
    (member : Member) (u keyPath orig : String) (force : Bool)
    (h1 : st.manifestFile = some m)
    (h2 : env.currentUser = some u)
    (h3 : m.Members.find? (fun mem => mem.ID == u) = some member)
    (h4 : force = true ∨ checkKeyExpiry member m.Settings.MaxKeyAgeDays env.now = .ok ())
    (h5 : findKeyForPublicKey env st.files member.AgeKey = some keyPath)
    (h6 : st.files.read keyPath = some orig) :
    ∀ e st', RotateKey env force st = .error (e, st') →
      st'.files.read keyPath = some orig ∧
      st'.files.read (keyPath ++ ".backup") = none ∧
      (∀ newPub newPriv, env.gen = .ok (newPub, newPriv) → env.saveOK = true →
        st'.manifestFile = some (rotatedManifest m u newPub env.now)) := by
  intro e st' h
  simp only [RotateKey, h1, h2, h3, h5] at h
  have hforce : (if force then (.ok () : Except String Unit) else
      checkKeyExpiry member m.Settings.MaxKeyAgeDays env.now) = .ok () := by
    cases force with
    | true => rfl
    | false =>
      rcases h4 with h4 | h4
      · cases h4
      · simpa using h4
  rw [hforce] at h
  simp only [backupCurrentKey, h6] at h
  have hbackup : (st.files.write (keyPath ++ ".backup") orig).read (keyPath ++ ".backup") =
      some orig := FS.read_write_self _ _ _
  have hne1 : keyPath ≠ keyPath ++ ".backup" := self_ne_append_backup keyPath
  have hne2 : ∀ priv, keyPathForPrivateKey env priv ≠ keyPath ++ ".backup" := fun priv =>
    append_txt_ne_append_backup (".secrets/key-" ++ env.keyHash priv) keyPath
  cases hrun : executeKeyRotation env m u keyPath (keyPath ++ ".backup")
      { st with files := st.files.write (keyPath ++ ".backup") orig } with
  | ok stOK =>
    rw [hrun] at h
    simp at h
  | error pair =>
    obtain ⟨e₀, st₀⟩ := pair
    rw [hrun] at h
    simp only [Except.error.injEq, Prod.mk.injEq] at h
    obtain ⟨-, hst⟩ := h
    subst hst
    obtain ⟨hr1, hr2, hr3⟩ := executeKeyRotation_error_restores env m u keyPath
      (keyPath ++ ".backup") orig
      { st with files := st.files.write (keyPath ++ ".backup") orig }
      hbackup hne1 hne2 e₀ st₀ hrun
    refine ⟨?_, ?_, ?_⟩
    · simp only [removeBackup]
      rw [FS.read_remove_other _ hne1]
      exact hr1
    · simp only [removeBackup]
      exact FS.read_remove_self _ _
    · intro newPub newPriv hgen hsave
      simp only [removeBackup]
      exact hr3 newPub newPriv hgen hsave

/-- Witness for C4 at a concrete input: generation and manifest save
succeed, the re-encryption fails; the key file is back to its old
content, the backup is gone, and the manifest file keeps the rotated
member. -/
theorem C4_witness :
    (FS.read [(".secrets/key-11111.txt", "PRIV-OLD"), (".secrets/key-fffff.txt", "PRIV-NEW")]
        ".secrets/key-11111.txt" = some "PRIV-OLD") ∧
    (FS.read [(".secrets/key-11111.txt", "PRIV-OLD"), (".secrets/key-fffff.txt", "PRIV-NEW")]
        (".secrets/key-11111.txt" ++ ".backup") = none) ∧
    (RotState.manifestFile
        { manifestFile := some (rotatedManifest mRot "alice" "age1new" rotEnvExecFail.now),
          files := [(".secrets/key-11111.txt", "PRIV-OLD"),
                    (".secrets/key-fffff.txt", "PRIV-NEW")],
          log := ["age-keygen", "sops-execute"] } =
      some (rotatedManifest mRot "alice" "age1new" rotEnvExecFail.now)) := by
  have h := C4_rotation_failure_restores_key_file rotEnvExecFail rotStW mRot
    ⟨"alice", "age1alice", 0⟩ "alice" ".secrets/key-11111.txt" "PRIV-OLD" true
    rfl rfl (by decide) (Or.inl rfl) (by decide) (by decide)
    "failed to re-encrypt files"
    { manifestFile := some (rotatedManifest mRot "alice" "age1new" rotEnvExecFail.now),
      files := [(".secrets/key-11111.txt", "PRIV-OLD"), (".secrets/key-fffff.txt", "PRIV-NEW")],
      log := ["age-keygen", "sops-execute"] }
    (by decide)
  exact ⟨h.1, h.2.1, h.2.2 "age1new" "PRIV-NEW" rfl rfl⟩

/-! ## C10 — AddMember -/

theorem addToDefaultScope_spec (id : String) (l : List Scope)
    (huniq : (l.filter (fun s => s.Name == "default")).length ≤ 1) :
    (addToDefaultScope l id).length = l.length ∧
    (∀ i s s', l.get? i = some s → (addToDefaultScope l id).get? i = some s' →
      s'.Name = s.Name ∧ s'.Patterns = s.Patterns ∧
      (s.Name ≠ "default" → s'.Members = s.Members) ∧
      (s.Name = "default" → s'.Members = s.Members ++ [id])) := by
  induction l with
  | nil =>
    refine ⟨rfl, ?_⟩
    intro i s s' h
    cases i <;> cases h
  | cons a t ih =>
    by_cases ha : a.Name = "default"
    · have htail : ∀ s ∈ t, s.Name ≠ "default" := by
        intro s hs hsd
        have hlen : (t.filter (fun s => s.Name == "default")).length = 0 := by
          have h2 : (List.filter (fun s => s.Name == "default") (a :: t)).length =
              (t.filter (fun s => s.Name == "default")).length + 1 := by
            simp [List.filter_cons, ha]
          omega
        have hmem : s ∈ t.filter (fun s => s.Name == "default") :=
          List.mem_filter.mpr ⟨hs, by simp [hsd]⟩
        rw [List.length_eq_zero] at hlen
        rw [hlen] at hmem
        cases hmem
      refine ⟨by simp [addToDefaultScope, ha], ?_⟩
      intro i s s' hget hget'
      simp only [addToDefaultScope, if_pos ha] at hget'
      cases i with
      | zero =>
        cases hget
        cases hget'
        exact ⟨rfl, rfl, fun hne => absurd ha hne, fun _ => rfl⟩
      | succ n =>
        simp only [List.get?_cons_succ] at hget hget'
        rw [hget] at hget'
        cases hget'
        refine ⟨rfl, rfl, fun _ => rfl, ?_⟩
        intro hd
        exact absurd hd (htail s (List.get?_mem hget))
    · have huniq' : (t.filter (fun s => s.Name == "default")).length ≤ 1 := by
        simpa [List.filter_cons, ha] using huniq
      obtain ⟨ihlen, ihspec⟩ := ih huniq'
      refine ⟨by simp [addToDefaultScope, ha, ihlen], ?_⟩
      intro i s s' hget hget'
      simp only [addToDefaultScope, if_neg ha] at hget'
      cases i with
      | zero =>
        cases hget
        cases hget'
        exact ⟨rfl, rfl, fun _ => rfl, fun hd => absurd hd ha⟩
      | succ n =>
        simp only [List.get?_cons_succ] at hget hget'
        exact ihspec n s s' hget hget'

/-- C10: `AddMember` with an already-present ID fails with an
"already exists" error and the manifest file is not written; with a fresh
ID it appends exactly one member (the new ID, key and timestamp) to
`Members`, appends the ID to the member list of the scope named
`default` if one exists, and leaves every other scope's name, patterns
and members, and the settings, unchanged.  Scope names are unique (the
data model invariant), stated here as "at most one scope named
default". -/
theorem C10_AddMember_frame (m : Manifest) (id ageKey : String) (now : Int)
    (huniq : (m.Scopes.filter (fun s => s.Name == "default")).length ≤ 1) :
    (id ∈ m.Members.map Member.ID →
      AddMember id ageKey now (some m) =
        .error ("member " ++ id ++ " already exists", some m)) ∧
    (id ∉ m.Members.map Member.ID →
      ∃ m', AddMember id ageKey now (some m) = .ok (some m') ∧
        m'.Members = m.Members ++ [{ ID := id, AgeKey := ageKey, Created := now }] ∧
        m'.Settings = m.Settings ∧
        m'.Scopes.length = m.Scopes.length ∧
        (∀ i s s', m.Scopes.get? i = some s → m'.Scopes.get? i = some s' →
          s'.Name = s.Name ∧ s'.Patterns = s.Patterns ∧
          (s.Name ≠ "default" → s'.Members = s.Members) ∧
          (s.Name = "default" → s'.Members = s.Members ++ [id]))) := by
  constructor
  · intro hmem
    obtain ⟨x, hx, hfx⟩ := List.mem_map.mp hmem
    simp [AddMember]
    exact ⟨x, hx, hfx⟩
  · intro hmem
    have hc : (m.Members.map (·.ID)).contains id = false := by
      simpa using hmem
    refine ⟨{ m with
        Members := m.Members ++ [{ ID := id, AgeKey := ageKey, Created := now }],
        Scopes := addToDefaultScope m.Scopes id }, ?_, rfl, rfl, ?_, ?_⟩
    · simp [AddMember, hc]
      intro x hx heq
      exact hmem (List.mem_map.mpr ⟨x, hx, heq⟩)
    · exact (addToDefaultScope_spec id m.Scopes huniq).1
    · exact (addToDefaultScope_spec id m.Scopes huniq).2

/-- Witness for C10 at a concrete input: adding `alice`, who is already a
member of `mW`, fails and leaves the manifest file as it was. -/
theorem C10_witness :
    AddMember "alice" "age1other" 0 (some mW) =
      .error ("member alice already exists", some mW) :=
  (C10_AddMember_frame mW "alice" "age1other" 0 (by decide)).1 (by decide)

end Sopsistry
